import Mathlib

/-!
Verification of the monoid audio-to-mono converter.

The repository ships a single JavaScript file, `src/main.js`, containing the
UI boundary layer of a Tauri application: a file picker, a convert button,
and listeners for the `progress` and `conversion-result` notification
streams emitted by the conversion engine.  The engine itself (format prober,
decoder, downmixer, encoder and job controller) is described by the
specification but its code is not part of the repository snapshot; those
components are modelled here from the specification text, while everything
about `main.js` is embedded directly from the source.
-/

namespace Monoid

/-! ## JavaScript string primitives used by `main.js`

`main.js` uses `===` string comparison, `String.prototype.startsWith`,
`String.prototype.includes` and the global `parseFloat`.  These are
embedded over Lean strings viewed as their character lists. -/

/-- JS `s.startsWith(p)`: `p` is a prefix of `s`. -/
def jsStartsWith (s p : String) : Bool :=
  p.data.isPrefixOf s.data

/-- JS `s.includes(c)` for a single-character needle. -/
def jsContainsChar (s : String) (c : Char) : Bool :=
  s.data.contains c

/-- Numeric value of a decimal digit character. -/
def digitVal (c : Char) : ℕ := c.toNat - 48

/-- The exact value of a finite decimal literal: `mantissa / 10 ^ scale`.
JS numbers are floats; the payloads exchanged here are short decimal
strings, which this exact form represents without rounding. -/
structure DecValue where
  mantissa : ℤ
  scale : ℕ
  deriving Repr, DecidableEq

/-- The rational number a `DecValue` denotes. -/
def DecValue.toRat (d : DecValue) : ℚ :=
  (d.mantissa : ℚ) / 10 ^ d.scale

/-- Append one digit to the integer part of a decimal accumulator. -/
def pushIntDigit (m : ℕ) (c : Char) : ℕ := 10 * m + digitVal c

/-- Append one digit to the fractional part of a decimal accumulator. -/
def pushFracDigit (d : DecValue) (c : Char) : DecValue :=
  ⟨10 * d.mantissa + digitVal c, d.scale + 1⟩

/-- Scale a decimal value by `10 ^ e` for a (possibly negative) exponent
part, staying in exact mantissa/scale form. -/
def DecValue.applyExp (d : DecValue) (e : ℤ) : DecValue :=
  if 0 ≤ e then ⟨d.mantissa * 10 ^ e.toNat, d.scale⟩
  else ⟨d.mantissa, d.scale + (-e).toNat⟩

/-- The value of an `ExponentPart` (`e` or `E`, an optional sign, then
digits) standing at the head of the remaining input; `0` when no complete
exponent part is present there, since the longest valid literal prefix
then stops before the `e`. -/
def parseExpPart (cs : List Char) : ℤ :=
  match cs with
  | c :: rest =>
      if c = 'e' || c = 'E' then
        match rest with
        | d :: rest2 =>
            if d = '-' then
              let ds := rest2.takeWhile Char.isDigit
              if ds.isEmpty then 0 else -((ds.foldl pushIntDigit 0 : ℕ) : ℤ)
            else if d = '+' then
              let ds := rest2.takeWhile Char.isDigit
              if ds.isEmpty then 0 else ((ds.foldl pushIntDigit 0 : ℕ) : ℤ)
            else
              let ds := rest.takeWhile Char.isDigit
              if ds.isEmpty then 0 else ((ds.foldl pushIntDigit 0 : ℕ) : ℤ)
        | [] => 0
      else 0
  | [] => 0

/-- Parse the longest unsigned decimal-literal prefix — `digits`,
`digits.digits`, `.digits` or `digits.`, each with an optional exponent
part; `none` when no such prefix exists. -/
def parseUnsignedDecimal (cs : List Char) : Option DecValue :=
  let intDigits := cs.takeWhile Char.isDigit
  let rest := cs.dropWhile Char.isDigit
  let intVal : DecValue := ⟨((intDigits.foldl pushIntDigit 0 : ℕ) : ℤ), 0⟩
  match rest with
  | c :: rest2 =>
      if c = '.' then
        let fracDigits := rest2.takeWhile Char.isDigit
        let afterFrac := rest2.dropWhile Char.isDigit
        if intDigits.isEmpty && fracDigits.isEmpty then none
        else some ((fracDigits.foldl pushFracDigit intVal).applyExp (parseExpPart afterFrac))
      else if intDigits.isEmpty then none
      else some (intVal.applyExp (parseExpPart rest))
  | [] => if intDigits.isEmpty then none else some intVal

/-- A JS whitespace character, as far as the payloads here are concerned. -/
def isWsChar (c : Char) : Bool :=
  c = ' ' || c = '\t' || c = '\n' || c = '\r'

/-- A JS number as `parseFloat` can produce one: an exact finite decimal
value, or an infinity of either sign. -/
inductive JsNumber where
  | finite (d : DecValue)
  | infinite (neg : Bool)
  deriving Repr, DecidableEq

/-- Negation of a parsed JS number, for a leading `-` sign. -/
def JsNumber.negate : JsNumber → JsNumber
  | .finite d => .finite ⟨-d.mantissa, d.scale⟩
  | .infinite b => .infinite !b

/-- The characters of the `Infinity` literal. -/
def infinityChars : List Char :=
  ['I', 'n', 'f', 'i', 'n', 'i', 't', 'y']

/-- An unsigned `StrUnsignedDecimalLiteral` prefix: the `Infinity`
literal, or a decimal literal with optional fraction and exponent. -/
def parseUnsignedJs (cs : List Char) : Option JsNumber :=
  if infinityChars.isPrefixOf cs then some (.infinite false)
  else (parseUnsignedDecimal cs).map .finite

/-- Modelled from ECMAScript `parseFloat`: skip leading whitespace, then
take the longest `StrDecimalLiteral` prefix — an optional sign followed
either by the `Infinity` literal or by a decimal literal
`digits[.digits][(e|E)[sign]digits]` — and return its value; a string
with no such prefix gives `NaN`, modelled as `none`.  The value is kept
exact in mantissa/scale form rather than rounded to binary floating
point; the claims proved evaluate it only where that distinction is
invisible. -/
def jsParseFloat (s : String) : Option JsNumber :=
  let cs := s.data.dropWhile isWsChar
  match cs with
  | [] => none
  | c :: rest =>
      if c = '-' then (parseUnsignedJs rest).map JsNumber.negate
      else if c = '+' then parseUnsignedJs rest
      else parseUnsignedJs cs

/-! ## The DOM state touched by `main.js` -/

/-- The pieces of DOM state that `main.js` reads or writes: the text of
`#convert-msg` and `#progress-msg`, the `display` of `#progress-container`
and `#cancel-btn` (as visibility booleans), the `value` of `#progress-bar`
(`none` models `NaN`), the `disabled` flags of `#select-file` and
`#convert`, and the `value` of `#file-input`. -/
structure UIState where
  convertMsg : String
  progressMsg : String
  progressContainerVisible : Bool
  cancelBtnVisible : Bool
  progressBarValue : Option JsNumber
  selectFileDisabled : Bool
  convertDisabled : Bool
  fileInput : String
  deriving Repr, DecidableEq

/-- A call to Tauri `invoke`: command name and the `filePath` argument. -/
structure InvokeCall where
  cmd : String
  arg : String
  deriving Repr, DecidableEq

/-- `convertToMono` (main.js lines 32-37): clears `#convert-msg`, disables
`#select-file` and `#convert`, and invokes `convert_to_mono` with the
current (unvalidated) `#file-input` value. -/
def convertToMono (st : UIState) : UIState × InvokeCall :=
  ({ st with
      convertMsg := ""
      selectFileDisabled := true
      convertDisabled := true },
   ⟨"convert_to_mono", st.fileInput⟩)

/-- The `progress` listener (main.js lines 44-57): shows the payload, then
branches on exact match with the start marker, prefix match with the
completion marker, and presence of `%`, in that order. -/
def progressHandler (payload : String) (st : UIState) : UIState :=
  let st1 := { st with progressMsg := payload }
  if payload = "Starting conversion..." then
    { st1 with
        progressContainerVisible := true
        cancelBtnVisible := true
        progressBarValue := some (.finite ⟨0, 0⟩) }
  else if jsStartsWith payload "Conversion complete" then
    { st1 with
        progressContainerVisible := false
        cancelBtnVisible := false }
  else if jsContainsChar payload '%' then
    { st1 with progressBarValue := jsParseFloat payload }
  else
    st1

/-- Payload of a `conversion-result` event. -/
structure ResultPayload where
  success : Bool
  message : String
  error : String
  deriving Repr, DecidableEq

/-- The `conversion-result` listener (main.js lines 59-69): writes the
message or error, hides the progress UI, and re-enables both controls. -/
def conversionResultHandler (p : ResultPayload) (st : UIState) : UIState :=
  { st with
      convertMsg := if p.success then p.message else "Error: " ++ p.error
      progressContainerVisible := false
      cancelBtnVisible := false
      selectFileDisabled := false
      convertDisabled := false }

/-- The branch taken by the `progress` listener, in source order:
exact start marker first, then completion prefix, then `%`-containing
percentage strings, else nothing beyond displaying the text. -/
inductive ProgressShape where
  | startMarker
  | completeMarker
  | percentString
  | unrecognized
  deriving Repr, DecidableEq

/-- Classification of a payload by the `progress` listener's branch
structure (main.js lines 46-56). -/
def classifyProgress (payload : String) : ProgressShape :=
  if payload = "Starting conversion..." then .startMarker
  else if jsStartsWith payload "Conversion complete" then .completeMarker
  else if jsContainsChar payload '%' then .percentString
  else .unrecognized

/-- The typed progress messages the core reports: the job start, the
completion (with any trailing detail text), and a whole-percent progress
value. -/
inductive ProgressMsg where
  | start
  | complete (detail : String)
  | percent (n : ℕ)
  deriving Repr, DecidableEq

/-- Modelled from the spec: the string rendering of a progress
notification sent over the `progress` stream — the literal start marker,
the completion marker followed by any detail text, or the whole-percent
value followed by `%`. -/
def renderProgress : ProgressMsg → String
  | .start => "Starting conversion..."
  | .complete detail => "Conversion complete" ++ detail
  | .percent n => toString n ++ "%"

/-! ## The conversion engine, modelled from the specification

The engine's source is not in the repository snapshot; each definition
below is modelled from the specification text (sections 3-7). -/

/-- Modelled from the spec: the Downmixer's streaming accumulation of one
frame's channel samples in wide (exact rational) precision. -/
def wideSum (frame : List ℤ) : ℚ :=
  frame.foldl (fun acc (s : ℤ) => acc + (s : ℚ)) 0

/-- Modelled from the spec: `mix(PcmFrame) -> MonoFrame` before
re-quantization — the frame's channel samples are accumulated in wide
precision and divided by the channel count. -/
def mix (frame : List ℤ) : ℚ :=
  wideSum frame / frame.length

/-- Modelled from the spec: re-quantization of the wide-precision mono
sample to the output bit depth, by rounding to the nearest representable
integer. -/
def quantize (q : ℚ) : ℤ := round q

/-- Modelled from the spec: the downmix of one PCM frame as written to the
output — the wide-precision mean, re-quantized. -/
def mixFrame (frame : List ℤ) : ℤ := quantize (mix frame)

/-- Modelled from the spec: the sample data produced by running every
decoded frame of a file through the Downmixer. -/
def downmixAll (frames : List (List ℤ)) : List ℤ :=
  frames.map mixFrame

/-- Modelled from the spec: the mono file written by the Encoder — each
mono sample becomes a one-channel frame. -/
def encodeMono (samples : List ℤ) : List (List ℤ) :=
  samples.map (fun a => [a])

/-- Modelled from the spec: a whole conversion at the sample level —
decode to frames, downmix each frame, encode the mono samples. -/
def convertFrames (frames : List (List ℤ)) : List (List ℤ) :=
  encodeMono (downmixAll frames)

/-! ## Format Prober, modelled from the specification -/

/-- The audio-file extensions accepted by the dialog filter
(main.js lines 12-15) and required of the Prober by the spec. -/
def supportedExtensions : List String :=
  ["wav", "mp3", "flac", "aac", "ogg", "m4a", "mp4"]

/-- Probe errors, from the spec's error taxonomy. -/
inductive ProbeError where
  | UnsupportedFormat
  | MalformedHeader
  | IOError
  deriving Repr, DecidableEq

/-- `AudioInfo` from the spec's data model: channel count, sample rate,
bit depth, and an optional duration. -/
structure AudioInfo where
  channels : ℕ
  sample_rate : ℕ
  bits_per_sample : ℕ
  duration_seconds : Option ℚ
  deriving Repr, DecidableEq

/-- An abstract source file as the Prober sees it: its extension, whether
its container/codec headers are well-formed, the stream parameters the
headers declare, and the header-declared total sample count when the
container carries one. -/
structure SourceFile where
  ext : String
  headerOk : Bool
  channels : ℕ
  sampleRate : ℕ
  bitsPerSample : ℕ
  headerSampleCount : Option ℕ
  deriving Repr, DecidableEq

/-- A valid file of a supported format: supported extension, well-formed
headers, and sane declared stream parameters. -/
def SourceFile.valid (f : SourceFile) : Bool :=
  f.ext ∈ supportedExtensions && f.headerOk
    && 1 ≤ f.channels && 1 ≤ f.sampleRate && 1 ≤ f.bitsPerSample

/-- Modelled from the spec: `probe(path) -> AudioInfo | ProbeError`.
Unsupported extensions are rejected first; corrupt or insane headers give
`MalformedHeader`; otherwise the declared parameters are returned, with
the duration computed from the header-declared sample count when present
and left absent (never estimated) otherwise. -/
def probe (f : SourceFile) : Except ProbeError AudioInfo :=
  if f.ext ∉ supportedExtensions then
    .error .UnsupportedFormat
  else if !f.headerOk || f.channels = 0 || f.sampleRate = 0 || f.bitsPerSample = 0 then
    .error .MalformedHeader
  else
    .ok ⟨f.channels, f.sampleRate, f.bitsPerSample,
         f.headerSampleCount.map (fun n => (n : ℚ) / f.sampleRate)⟩

/-! ## Conversion Job Controller, modelled from the specification -/

/-- Job status, from the spec's state machine
`Pending -> Running -> (Completed | Failed | Cancelled)` with the
`Running -> Cancelling -> Cancelled` path. -/
inductive Status where
  | Pending
  | Running
  | Cancelling
  | Completed
  | Failed
  | Cancelled
  deriving Repr, DecidableEq

/-- A status a job never leaves (nothing resurrects a finished job). -/
def Status.isTerminal : Status → Bool
  | .Completed => true
  | .Failed => true
  | .Cancelled => true
  | _ => false

/-- A notification emitted by the controller for the current job: either a
progress fraction or the terminal result (success flag plus text). -/
inductive Notif where
  | progress (fraction : ℚ)
  | result (success : Bool) (text : String)
  deriving Repr, DecidableEq

/-- Whether a notification is the terminal result. -/
def Notif.isResult : Notif → Bool
  | .result _ _ => true
  | _ => false

/-- The fraction carried by a progress notification, if any. -/
def Notif.fraction? : Notif → Option ℚ
  | .progress q => some q
  | _ => none

/-- Modelled from the spec: the state shared between the caller-facing
side and the worker — the current job's status, the cancellation token,
the frame counters driving `progress_fraction`, whether the temporary and
final output files exist, and the notifications emitted for the current
job, newest first. -/
structure CtrlState where
  status : Status
  tokenSet : Bool
  framesProcessed : ℕ
  totalFrames : ℕ
  tempFile : Bool
  finalFile : Bool
  notifs : List Notif
  deriving Repr, DecidableEq

/-- The controller before any conversion request. -/
def initCtrl : CtrlState :=
  ⟨.Pending, false, 0, 0, false, false, []⟩

/-- The events the controller reacts to: a start request (with the total
frame estimate from probing), a cancellation request, one processed frame
batch, clean end of stream, a decode error, and the worker's observation
of the cancellation token between frames. -/
inductive Event where
  | start (total : ℕ)
  | cancel
  | frame
  | endOfStream
  | decodeError (msg : String)
  | observeToken
  deriving Repr, DecidableEq

/-- Whether an event is a fresh conversion request (which begins a new
job, as opposed to the events of the job in flight). -/
def Event.isStart : Event → Bool
  | .start _ => true
  | _ => false

/-- The reply to a start request: accepted, or rejected because a job is
already active. -/
inductive StartReply where
  | accepted
  | jobBusy
  deriving Repr, DecidableEq

/-- The current job's `progress_fraction`: frames processed over the total
estimate, clamped to 1. -/
def CtrlState.fraction (s : CtrlState) : ℚ :=
  min 1 ((s.framesProcessed : ℚ) / s.totalFrames)

/-- Modelled from the spec (section 4.5): one controller transition.
A start while a job is active is rejected with `JobBusy` and changes
nothing; an accepted start opens the temp file for the new job — whose
final output path holds no file yet — and emits the initial progress
notification.  Cancellation sets the token and moves
`Running -> Cancelling`, and is a no-op otherwise.  A frame batch advances
the counter and emits the new fraction.  End of stream finalizes: the temp
file is atomically renamed into place and the single success result is
emitted.  A decode error deletes the temp file and emits the failure
result.  Observing the set token tears down: `Cancelling -> Cancelled`,
temp file deleted, failure-shaped result emitted.  Terminal states absorb
every event except a fresh start. -/
def step (s : CtrlState) : Event → CtrlState × Option StartReply
  | .start total =>
      if s.status = .Running || s.status = .Cancelling then
        (s, some .jobBusy)
      else
        (⟨.Running, false, 0, total, true, false,
          [.progress 0]⟩, some .accepted)
  | .cancel =>
      if s.status = .Running then
        ({ s with status := .Cancelling, tokenSet := true }, none)
      else
        (s, none)
  | .frame =>
      if s.status = .Running then
        let s1 := { s with framesProcessed := s.framesProcessed + 1 }
        ({ s1 with notifs := .progress s1.fraction :: s1.notifs }, none)
      else
        (s, none)
  | .endOfStream =>
      if s.status = .Running then
        ({ s with
            status := .Completed
            tempFile := false
            finalFile := true
            notifs := .result true "Conversion complete" :: s.notifs }, none)
      else
        (s, none)
  | .decodeError msg =>
      if s.status = .Running then
        ({ s with
            status := .Failed
            tempFile := false
            notifs := .result false msg :: s.notifs }, none)
      else
        (s, none)
  | .observeToken =>
      if s.status = .Cancelling then
        ({ s with
            status := .Cancelled
            tempFile := false
            notifs := .result false "Conversion cancelled" :: s.notifs }, none)
      else
        (s, none)

/-- The state after an event, the start reply discarded. -/
def step1 (s : CtrlState) (e : Event) : CtrlState :=
  (step s e).1

/-- The controller state after a sequence of events. -/
def run (s : CtrlState) (es : List Event) : CtrlState :=
  es.foldl step1 s

/-- The number of result notifications in an emission list. -/
def resultCount (ns : List Notif) : ℕ :=
  (ns.filter Notif.isResult).length

/-- The progress fractions among the emitted notifications, newest first. -/
def progressFractions (ns : List Notif) : List ℚ :=
  ns.filterMap Notif.fraction?

/-! ## Helper lemmas -/

/-- A string followed by anything starts with that string. -/
theorem jsStartsWith_append (p s : String) : jsStartsWith (p ++ s) p = true := by
  simp [jsStartsWith, List.isPrefixOf_iff_prefix]

/-- A payload with the completion-marker prefix is not the start marker. -/
theorem ne_startMarker_of_completePrefix (s : String)
    (h : jsStartsWith s "Conversion complete" = true) :
    s ≠ "Starting conversion..." := by
  intro hs
  rw [hs] at h
  exact absurd h (by decide)

/-- Neither branch of the `progress` listener touches the `disabled` flag
of either control. -/
theorem progressHandler_preserves_disabled (payload : String) (st : UIState) :
    (progressHandler payload st).selectFileDisabled = st.selectFileDisabled ∧
    (progressHandler payload st).convertDisabled = st.convertDisabled := by
  unfold progressHandler
  split_ifs <;> exact ⟨rfl, rfl⟩

/-- Any run of `progress` events keeps both controls' `disabled` flags. -/
theorem progressFold_preserves_disabled (payloads : List String) (st : UIState) :
    ((payloads.foldl (fun acc q => progressHandler q acc) st).selectFileDisabled
        = st.selectFileDisabled) ∧
    ((payloads.foldl (fun acc q => progressHandler q acc) st).convertDisabled
        = st.convertDisabled) := by
  induction payloads generalizing st with
  | nil => exact ⟨rfl, rfl⟩
  | cons p ps ih =>
      have hp := progressHandler_preserves_disabled p st
      have hi := ih (progressHandler p st)
      exact ⟨by rw [List.foldl_cons, hi.1, hp.1], by rw [List.foldl_cons, hi.2, hp.2]⟩

/-! ## Claims about the `main.js` boundary code -/

/-- C10: `convertToMono` disables both controls and fires
`convert_to_mono` with the raw (possibly empty) file-input value; no
`progress` payload — the completion marker included — changes either
`disabled` flag; only the `conversion-result` listener re-enables them; so
after a start, any run of progress events alone leaves both controls
disabled. -/
theorem controls_reenabled_only_by_result :
    (∀ st, (convertToMono st).1.selectFileDisabled = true ∧
      (convertToMono st).1.convertDisabled = true ∧
      (convertToMono st).2 = ⟨"convert_to_mono", st.fileInput⟩) ∧
    (∀ payload st,
      (progressHandler payload st).selectFileDisabled = st.selectFileDisabled ∧
      (progressHandler payload st).convertDisabled = st.convertDisabled) ∧
    (∀ p st, (conversionResultHandler p st).selectFileDisabled = false ∧
      (conversionResultHandler p st).convertDisabled = false) ∧
    (∀ (payloads : List String) (st : UIState),
      ((payloads.foldl (fun acc q => progressHandler q acc)
          (convertToMono st).1).selectFileDisabled = true) ∧
      ((payloads.foldl (fun acc q => progressHandler q acc)
          (convertToMono st).1).convertDisabled = true)) := by
  refine ⟨fun st => ⟨rfl, rfl, rfl⟩,
         progressHandler_preserves_disabled,
         fun p st => ⟨rfl, rfl⟩,
         fun payloads st => ?_⟩
  have h := progressFold_preserves_disabled payloads (convertToMono st).1
  exact ⟨h.1.trans rfl, h.2.trans rfl⟩

/-- C4: every payload the core emits over the `progress` stream has one of
the three shapes the boundary pattern-matches on: the rendered start
message is taken by the exact start branch, every rendered completion
message by the completion-prefix branch, and every rendered whole-percent
message by the percentage branch, where `parseFloat` recovers exactly the
rendered percent value. -/
theorem progress_payload_shapes :
    classifyProgress (renderProgress .start) = .startMarker ∧
    (∀ detail, classifyProgress (renderProgress (.complete detail)) = .completeMarker) ∧
    (∀ n, n ≤ 100 →
      classifyProgress (renderProgress (.percent n)) = .percentString ∧
      jsParseFloat (renderProgress (.percent n)) = some (.finite ⟨(n : ℤ), 0⟩)) := by
  refine ⟨by decide, fun detail => ?_, ?_⟩
  · have hpre := jsStartsWith_append "Conversion complete" detail
    have hne := ne_startMarker_of_completePrefix _ hpre
    unfold renderProgress at hne ⊢
    unfold classifyProgress
    simp [hpre, hne]
  · decide

/-- C4 witness: the whole-percent payload at 42. -/
theorem progress_payload_shapes_witness :
    classifyProgress (renderProgress (.percent 42)) = .percentString ∧
    jsParseFloat (renderProgress (.percent 42)) = some (.finite ⟨(42 : ℤ), 0⟩) :=
  progress_payload_shapes.2.2 42 (by decide)

/-! ## Claims about the downmixer and conversion pipeline -/

/-- Folding exact-rational addition of the samples equals the cast of the
integer sum. -/
theorem foldl_add_cast (l : List ℤ) (a : ℚ) :
    l.foldl (fun acc (s : ℤ) => acc + (s : ℚ)) a = a + ((l.sum : ℤ) : ℚ) := by
  induction l generalizing a with
  | nil => simp
  | cons x t ih =>
      rw [List.foldl_cons, ih, List.sum_cons]
      push_cast
      ring

/-- The wide-precision accumulation computes the exact sum. -/
theorem wideSum_eq (l : List ℤ) : wideSum l = ((l.sum : ℤ) : ℚ) := by
  simpa using foldl_add_cast l 0

/-- Downmixing a mono frame reproduces its sample exactly. -/
theorem mixFrame_singleton (a : ℤ) : mixFrame [a] = a := by
  have hmix : mix [a] = (a : ℚ) := by
    unfold mix wideSum
    simp
  unfold mixFrame quantize
  rw [hmix]
  exact round_intCast a

/-- C1: the downmix of an N-channel frame (N ≥ 1) is the arithmetic mean
of its channel samples, computed exactly in wide (rational) precision
before re-quantization; for N = 1 the wide-precision mean is the input
sample itself and re-quantization returns it unchanged. -/
theorem downmix_mean (frame : List ℤ) (h : 1 ≤ frame.length) :
    mix frame = ((frame.sum : ℤ) : ℚ) / frame.length ∧
    (∀ a : ℤ, frame = [a] → mix frame = (a : ℚ) ∧ mixFrame frame = a) := by
  constructor
  · unfold mix
    rw [wideSum_eq]
  · rintro a rfl
    have hmix : mix [a] = (a : ℚ) := by
      unfold mix wideSum
      simp
    refine ⟨hmix, ?_⟩
    unfold mixFrame quantize
    rw [hmix]
    exact round_intCast a

/-- C1 witness: a stereo frame averages and a mono frame passes through. -/
theorem downmix_mean_witness :
    mix [2, 4] = (((2 + 4 : ℤ) : ℚ)) / 2 ∧ mix [7] = ((7 : ℤ) : ℚ) ∧ mixFrame [7] = 7 := by
  refine ⟨?_, (downmix_mean [7] (by decide)).2 7 rfl⟩
  have h := (downmix_mean [2, 4] (by decide)).1
  simpa using h

/-- Converting a file whose frames are all mono changes nothing. -/
theorem convertFrames_of_mono (frames : List (List ℤ))
    (h : ∀ f ∈ frames, f.length = 1) : convertFrames frames = frames := by
  induction frames with
  | nil => rfl
  | cons f t ih =>
      obtain ⟨a, rfl⟩ := List.length_eq_one.mp (h f (by simp))
      have ht := ih (fun g hg => h g (by simp [hg]))
      calc convertFrames ([a] :: t)
          = [mixFrame [a]] :: convertFrames t := rfl
        _ = [a] :: t := by rw [mixFrame_singleton, ht]

/-- C5: converting an already-mono file yields bit-identical sample data,
and conversion is idempotent — the output of any conversion is a fixed
point of converting again. -/
theorem convert_mono_fixed_point :
    (∀ frames : List (List ℤ), (∀ f ∈ frames, f.length = 1) →
      convertFrames frames = frames) ∧
    (∀ frames : List (List ℤ),
      convertFrames (convertFrames frames) = convertFrames frames) := by
  refine ⟨convertFrames_of_mono, fun frames => convertFrames_of_mono _ ?_⟩
  intro f hf
  simp only [convertFrames, encodeMono, downmixAll, List.map_map, List.mem_map] at hf
  obtain ⟨g, -, rfl⟩ := hf
  rfl

/-- C5 witness: a concrete mono file is returned bit-identically. -/
theorem convert_mono_fixed_point_witness :
    convertFrames [[3], [5]] = [[3], [5]] :=
  convert_mono_fixed_point.1 [[3], [5]] (by decide)

/-! ## Claims about the prober -/

/-- C8: probing a valid file of any supported format yields an
`AudioInfo` with positive channel count, sample rate and bit depth, and a
duration exactly when the header declares a sample count; an unsupported
extension yields `UnsupportedFormat` and a supported file with corrupt or
insane headers yields `MalformedHeader`. -/
theorem probe_contract :
    (∀ f : SourceFile, f.valid = true →
      ∃ info, probe f = .ok info ∧ 1 ≤ info.channels ∧ 1 ≤ info.sample_rate ∧
        1 ≤ info.bits_per_sample ∧
        (info.duration_seconds.isSome ↔ f.headerSampleCount.isSome)) ∧
    (∀ f : SourceFile, f.ext ∉ supportedExtensions →
      probe f = .error .UnsupportedFormat) ∧
    (∀ f : SourceFile, f.ext ∈ supportedExtensions →
      (f.headerOk = false ∨ f.channels = 0 ∨ f.sampleRate = 0 ∨ f.bitsPerSample = 0) →
      probe f = .error .MalformedHeader) := by
  refine ⟨fun f hv => ?_, fun f hext => ?_, fun f hext hbad => ?_⟩
  · simp only [SourceFile.valid, Bool.and_eq_true, decide_eq_true_eq] at hv
    obtain ⟨⟨⟨⟨hext, hok⟩, hch⟩, hsr⟩, hbps⟩ := hv
    refine ⟨⟨f.channels, f.sampleRate, f.bitsPerSample,
            f.headerSampleCount.map fun n => (n : ℚ) / f.sampleRate⟩,
           ?_, hch, hsr, hbps, by cases f.headerSampleCount <;> simp⟩
    unfold probe
    rw [if_neg (not_not_intro hext), if_neg (by simp [hok]; omega)]
  · unfold probe
    rw [if_pos hext]
  · unfold probe
    rw [if_neg (not_not_intro hext),
        if_pos (by rcases hbad with h | h | h | h <;> simp [h])]

/-- C8 witness: a valid stereo wav file probes successfully. -/
theorem probe_contract_witness :
    ∃ info, probe ⟨"wav", true, 2, 44100, 16, some 88200⟩ = .ok info ∧
      1 ≤ info.channels ∧ 1 ≤ info.sample_rate ∧ 1 ≤ info.bits_per_sample ∧
      (info.duration_seconds.isSome ↔
        (SourceFile.mk "wav" true 2 44100 16 (some 88200)).headerSampleCount.isSome) :=
  probe_contract.1 ⟨"wav", true, 2, 44100, 16, some 88200⟩ (by decide)

/-! ## Claims about the job controller -/

/-- The terminal-result bookkeeping: while a job is in flight no result
notification has been emitted; once it is terminal, exactly one has, and
it is the most recent notification. -/
def resultInvariant (s : CtrlState) : Prop :=
  if s.status.isTerminal then
    resultCount s.notifs = 1 ∧ s.notifs.head?.map Notif.isResult = some true
  else
    resultCount s.notifs = 0

/-- Every controller transition preserves the terminal-result
bookkeeping. -/
theorem resultInvariant_step (s : CtrlState) (e : Event)
    (h : resultInvariant s) : resultInvariant (step1 s e) := by
  cases e <;> cases hs : s.status <;>
    simp_all [resultInvariant, step1, step, Status.isTerminal, resultCount,
      Notif.isResult]

/-- The terminal-result bookkeeping holds along any event sequence. -/
theorem resultInvariant_run (es : List Event) (s : CtrlState)
    (h : resultInvariant s) : resultInvariant (run s es) := by
  induction es generalizing s with
  | nil => exact h
  | cons e es ih => exact ih _ (resultInvariant_step s e h)

/-- C2: whenever a job has reached a terminal status, exactly one
conversion-result notification has been emitted for it — never zero,
never two — and it is the most recent (hence last) notification of the
job. -/
theorem single_terminal_result (es : List Event)
    (h : (run initCtrl es).status.isTerminal = true) :
    resultCount (run initCtrl es).notifs = 1 ∧
    (run initCtrl es).notifs.head?.map Notif.isResult = some true := by
  have hinv := resultInvariant_run es initCtrl
    (by simp [resultInvariant, initCtrl, resultCount, Status.isTerminal])
  unfold resultInvariant at hinv
  rw [if_pos h] at hinv
  exact hinv

/-- C2 witness: a completed three-event job has exactly one result, last. -/
theorem single_terminal_result_witness :
    resultCount (run initCtrl [.start 2, .frame, .endOfStream]).notifs = 1 ∧
    (run initCtrl [.start 2, .frame, .endOfStream]).notifs.head?.map
      Notif.isResult = some true :=
  single_terminal_result [.start 2, .frame, .endOfStream] (by decide)

/-- While a job is Running or Cancelling, no file exists at its final
output path. -/
def activeNoFinal (s : CtrlState) : Prop :=
  (s.status = .Running ∨ s.status = .Cancelling) → s.finalFile = false

/-- Every transition preserves `activeNoFinal`. -/
theorem activeNoFinal_step (s : CtrlState) (e : Event)
    (h : activeNoFinal s) : activeNoFinal (step1 s e) := by
  cases e <;> cases hs : s.status <;>
    simp_all [activeNoFinal, step1, step]

/-- `activeNoFinal` holds along any event sequence. -/
theorem activeNoFinal_run (es : List Event) (s : CtrlState)
    (h : activeNoFinal s) : activeNoFinal (run s es) := by
  induction es generalizing s with
  | nil => exact h
  | cons e es ih => exact ih _ (activeNoFinal_step s e h)

/-- After a cancellation request: the job is Cancelling or already
Cancelled, and no file exists at its final output path. -/
def cancelledRegion (s : CtrlState) : Prop :=
  (s.status = .Cancelling ∨ s.status = .Cancelled) ∧ s.finalFile = false

/-- Any event of the same job (anything but a fresh start) keeps the
controller in the cancelled region. -/
theorem cancelledRegion_step (s : CtrlState) (e : Event)
    (he : e.isStart = false) (h : cancelledRegion s) :
    cancelledRegion (step1 s e) := by
  cases e <;> cases hs : s.status <;>
    simp_all [cancelledRegion, Event.isStart, step1, step]

/-- The cancelled region is closed under start-free event sequences. -/
theorem cancelledRegion_run (es : List Event) : ∀ s : CtrlState,
    (es.all fun e => !e.isStart) = true → cancelledRegion s →
    cancelledRegion (run s es) := by
  induction es with
  | nil => exact fun s _ h => h
  | cons e es ih =>
      intro s hes h
      rw [List.all_cons, Bool.and_eq_true] at hes
      exact ih (step1 s e) hes.2 (cancelledRegion_step s e (by simpa using hes.1) h)

/-- C3: cancelling a running job always ends it Cancelled — it can never
become Completed — and no file ever exists at its final output path while
the job's remaining events play out; a cancellation request when no job is
running changes nothing. -/
theorem cancel_yields_cancelled :
    (∀ s : CtrlState, s.status ≠ .Running → step1 s .cancel = s) ∧
    (∀ es0 es : List Event, (run initCtrl es0).status = .Running →
      (es.all fun e => !e.isStart) = true →
      ((run (step1 (run initCtrl es0) .cancel) es).status = .Cancelling ∨
        (run (step1 (run initCtrl es0) .cancel) es).status = .Cancelled) ∧
      (run (step1 (run initCtrl es0) .cancel) es).finalFile = false) := by
  constructor
  · intro s h
    simp [step1, step, h]
  · intro es0 es hrun hes
    have hfin : (run initCtrl es0).finalFile = false :=
      activeNoFinal_run es0 initCtrl (by simp [activeNoFinal, initCtrl]) (Or.inl hrun)
    have hstart : cancelledRegion (step1 (run initCtrl es0) .cancel) := by
      constructor
      · simp [step1, step, hrun]
      · simp [step1, step, hrun, hfin]
    exact cancelledRegion_run es _ hes hstart

/-- C3 witness: cancelling a started job and letting the worker observe
the token ends Cancelled with no final file; cancel with no job running
is a no-op. -/
theorem cancel_yields_cancelled_witness :
    step1 initCtrl .cancel = initCtrl ∧
    (((run (step1 (run initCtrl [.start 3, .frame]) .cancel)
        [.frame, .observeToken]).status = .Cancelling ∨
      (run (step1 (run initCtrl [.start 3, .frame]) .cancel)
        [.frame, .observeToken]).status = .Cancelled) ∧
     (run (step1 (run initCtrl [.start 3, .frame]) .cancel)
        [.frame, .observeToken]).finalFile = false) :=
  ⟨cancel_yields_cancelled.1 initCtrl (by decide),
   cancel_yields_cancelled.2 [.start 3, .frame] [.frame, .observeToken]
     (by decide) (by decide)⟩

/-- C6: a start request while a job is Running is answered `JobBusy` and
leaves the controller state — the first job's status, progress and
notifications — completely unchanged; nothing is queued. -/
theorem busy_start_rejected (s : CtrlState) (t : ℕ) (h : s.status = .Running) :
    (step s (.start t)).2 = some .jobBusy ∧ (step s (.start t)).1 = s := by
  constructor <;> simp [step, h]

/-- C6 witness: a second start against a freshly started job. -/
theorem busy_start_rejected_witness :
    (step (run initCtrl [.start 5]) (.start 3)).2 = some .jobBusy ∧
    (step (run initCtrl [.start 5]) (.start 3)).1 = run initCtrl [.start 5] :=
  busy_start_rejected (run initCtrl [.start 5]) 3 (by decide)

/-- Processing one more frame can only raise the progress fraction. -/
theorem fraction_mono (p t : ℕ) :
    min 1 ((p : ℚ) / t) ≤ min 1 (((p + 1 : ℕ) : ℚ) / t) := by
  rcases Nat.eq_zero_or_pos t with ht | ht
  · subst ht
    simp
  · refine min_le_min le_rfl ?_
    have hc : (0 : ℚ) < t := by exact_mod_cast ht
    exact (div_le_div_iff_of_pos_right hc).mpr (by exact_mod_cast Nat.le_succ p)

/-- Prepending a progress notification keeps only its fraction. -/
theorem progressFractions_cons_progress (x : ℚ) (l : List Notif) :
    progressFractions (Notif.progress x :: l) = x :: progressFractions l := rfl

/-- Prepending a result notification adds no fraction. -/
theorem progressFractions_cons_result (b : Bool) (t : String) (l : List Notif) :
    progressFractions (Notif.result b t :: l) = progressFractions l := rfl

/-- The emitted progress fractions are non-increasing newest-first, and
all of them lie at or below the job's current fraction. -/
def progressInvariant (s : CtrlState) : Prop :=
  List.Chain' (· ≥ ·) (progressFractions s.notifs) ∧
  ∀ q ∈ progressFractions s.notifs, q ≤ s.fraction

/-- The progress ordering survives a state change that keeps the
notifications and does not lower the fraction. -/
theorem progressInvariant_keep (s s' : CtrlState)
    (hn : s'.notifs = s.notifs) (hf : s.fraction ≤ s'.fraction)
    (h : progressInvariant s) : progressInvariant s' := by
  obtain ⟨hchain, hle⟩ := h
  rw [progressInvariant, hn]
  exact ⟨hchain, fun q hq => le_trans (hle q hq) hf⟩

/-- The progress ordering survives emitting the current (not lowered)
fraction on top of the previous notifications. -/
theorem progressInvariant_push (s s' : CtrlState)
    (hn : s'.notifs = Notif.progress s'.fraction :: s.notifs)
    (hf : s.fraction ≤ s'.fraction)
    (h : progressInvariant s) : progressInvariant s' := by
  obtain ⟨hchain, hle⟩ := h
  rw [progressInvariant, hn, progressFractions_cons_progress, List.chain'_cons']
  refine ⟨⟨?_, hchain⟩, ?_⟩
  · intro y hy
    exact le_trans (hle y (List.mem_of_mem_head? hy)) hf
  · intro q hq
    rcases List.mem_cons.mp hq with rfl | hq
    · exact le_rfl
    · exact le_trans (hle q hq) hf

/-- The progress ordering survives emitting a result notification while
keeping the fraction. -/
theorem progressInvariant_pushResult (s s' : CtrlState) (b : Bool) (t : String)
    (hn : s'.notifs = Notif.result b t :: s.notifs) (hf : s.fraction = s'.fraction)
    (h : progressInvariant s) : progressInvariant s' := by
  obtain ⟨hchain, hle⟩ := h
  rw [progressInvariant, hn, progressFractions_cons_result]
  exact ⟨hchain, fun q hq => le_trans (hle q hq) (le_of_eq hf)⟩

/-- A freshly accepted job satisfies the progress ordering. -/
theorem progressInvariant_fresh (total : ℕ) :
    progressInvariant ⟨.Running, false, 0, total, true, false, [.progress 0]⟩ := by
  constructor
  · simp [progressFractions, Notif.fraction?, List.filterMap]
  · intro q hq
    simp only [progressFractions, Notif.fraction?, List.filterMap,
      Option.some.injEq, List.mem_singleton] at hq
    subst hq
    unfold CtrlState.fraction
    exact le_min zero_le_one (by positivity)

/-- Every controller transition preserves the progress ordering. -/
theorem progressInvariant_step (s : CtrlState) (e : Event)
    (h : progressInvariant s) : progressInvariant (step1 s e) := by
  cases e with
  | start total =>
      simp only [step1, step]
      split_ifs
      · exact h
      · exact progressInvariant_fresh total
  | cancel =>
      simp only [step1, step]
      split_ifs
      · exact progressInvariant_keep s _ rfl le_rfl h
      · exact h
  | frame =>
      simp only [step1, step]
      split_ifs
      · exact progressInvariant_push s _ rfl
          (fraction_mono s.framesProcessed s.totalFrames) h
      · exact h
  | endOfStream =>
      simp only [step1, step]
      split_ifs
      · exact progressInvariant_pushResult s _ true "Conversion complete" rfl rfl h
      · exact h
  | decodeError msg =>
      simp only [step1, step]
      split_ifs
      · exact progressInvariant_pushResult s _ false msg rfl rfl h
      · exact h
  | observeToken =>
      simp only [step1, step]
      split_ifs
      · exact progressInvariant_pushResult s _ false "Conversion cancelled" rfl rfl h
      · exact h

/-- The progress ordering holds along any event sequence. -/
theorem progressInvariant_run (es : List Event) : ∀ s : CtrlState,
    progressInvariant s → progressInvariant (run s es) := by
  induction es with
  | nil => exact fun s h => h
  | cons e es ih => exact fun s h => ih (step1 s e) (progressInvariant_step s e h)

/-- C7: in emission order, the progress fractions of any run are
monotonically non-decreasing, and a job in a terminal status — Completed,
Failed or Cancelled — is never changed by any further event of that job
(only a fresh start request begins a new job). -/
theorem progress_monotone_terminal_oneway :
    (∀ es : List Event,
      List.Chain' (· ≤ ·) (progressFractions (run initCtrl es).notifs).reverse) ∧
    (∀ (s : CtrlState) (e : Event), s.status.isTerminal = true →
      e.isStart = false → step1 s e = s) := by
  constructor
  · intro es
    have hinv := progressInvariant_run es initCtrl
      (by exact ⟨by simp [initCtrl, progressFractions], by simp [initCtrl, progressFractions]⟩)
    exact List.chain'_reverse.mpr hinv.1
  · intro s e hterm hstart
    cases e <;> cases hs : s.status <;>
      simp_all [Event.isStart, step1, step, Status.isTerminal]

/-- C7 witness: a completed four-event job has non-decreasing emitted
fractions, and a frame event arriving after completion changes nothing. -/
theorem progress_monotone_terminal_oneway_witness :
    List.Chain' (· ≤ ·)
      (progressFractions (run initCtrl
        [.start 4, .frame, .frame, .endOfStream]).notifs).reverse ∧
    step1 (run initCtrl [.start 1, .endOfStream]) .frame
      = run initCtrl [.start 1, .endOfStream] :=
  ⟨progress_monotone_terminal_oneway.1 [.start 4, .frame, .frame, .endOfStream],
   progress_monotone_terminal_oneway.2 (run initCtrl [.start 1, .endOfStream])
     .frame (by decide) (by decide)⟩

end Monoid
